import Mathlib

/-!
# osluc: reconciliation of OpenShift users against an LDAP directory

A shallow embedding of `osluc.go` (and of the library calls it relies on) together with
theorems about the time codec `FileTimeToGoTime`, the filter construction and verdict of
`searchUser`, and the check-and-delete loop of `main`.

Go strings are embedded as Lean `String`s.  Where the Go code walks a string byte by byte
(`strconv.ParseUint`), the embedding walks it character by character: every byte of a
non-ASCII character is `≥ 0x80` and takes the same branch as the character does here.
-/

namespace Osluc

/-! ## Directory time codec -/

/-- The two error kinds `strconv.ParseInt(s, 10, 64)` can report (`NumError.Err`). -/
inductive NumError where
  | ErrSyntax
  | ErrRange
  deriving DecidableEq, Repr

/-- Largest `uint64`. -/
def maxUint64 : Nat := 2 ^ 64 - 1

/-- Two's complement reading of an integer as an `int64`. -/
def wrapInt64 (x : Int) : Int := (x + 2 ^ 63) % 2 ^ 64 - 2 ^ 63

/-- `lower(c)` of strconv: `c | ('x' - 'X')`, on the character code. -/
def lower (c : Nat) : Nat := c ||| 0x20

/-- The digit switch in the loop of `strconv.ParseUint` with `base0 = false`:
`'0'..'9'` give `c - '0'`, letters give `lower(c) - 'a' + 10`, every other character
(the underscore included) is the `default` branch, a syntax error. -/
def digitOf (c : Char) : Option Nat :=
  if 48 ≤ c.toNat ∧ c.toNat ≤ 57 then some (c.toNat - 48)
  else if 97 ≤ lower c.toNat ∧ lower c.toNat ≤ 122 then some (lower c.toNat - 97 + 10)
  else none

/-- The `for _, c := range []byte(s)` loop of `strconv.ParseUint` for base 10 and bit size 64;
`n` is the accumulator.  `cutoff = maxUint64/10 + 1`, `maxVal = maxUint64`, and `n + d` is
computed modulo `2^64` as in Go.  A range error is returned at the first overflowing digit. -/
def parseUintLoop : List Char → Nat → Except NumError Nat
  | [], n => .ok n
  | c :: cs, n =>
    match digitOf c with
    | none => .error .ErrSyntax
    | some d =>
      if d ≥ 10 then .error .ErrSyntax
      else if n ≥ maxUint64 / 10 + 1 then .error .ErrRange
      else
        let n10 := n * 10
        let n1 := (n10 + d) % 2 ^ 64
        if n1 < n10 ∨ n1 > maxUint64 then .error .ErrRange
        else parseUintLoop cs n1

/-- `strconv.ParseUint(s, 10, 64)` on the characters of `s`. -/
def ParseUint (s : List Char) : Except NumError Nat :=
  match s with
  | [] => .error .ErrSyntax
  | _ => parseUintLoop s 0

/-- The end of `strconv.ParseInt` for bit size 64, from `cutoff := uint64(1 << 63)` on:
`un` is the magnitude `ParseUint` returned, `neg` tells whether a `-` was picked off. -/
def cutoffCheck (neg : Bool) (un : Nat) : Except NumError Int :=
  if neg = false ∧ un ≥ 2 ^ 63 then .error .ErrRange
  else if neg = true ∧ un > 2 ^ 63 then .error .ErrRange
  else
    let n : Int := wrapInt64 un
    .ok (if neg then wrapInt64 (-n) else n)

/-- `strconv.ParseInt(s, 10, 64)`: empty input is a syntax error, one leading `+` or `-` is
picked off, the rest goes through `ParseUint`; a syntax error is passed on, a range error of
`ParseUint` leaves `un = maxVal`, which the cutoff test then rejects. -/
def ParseInt (s : String) : Except NumError Int :=
  match s.data with
  | [] => .error .ErrSyntax
  | c :: rest =>
    let neg : Bool := c = '-'
    let body := if c = '+' ∨ c = '-' then rest else c :: rest
    match ParseUint body with
    | .error .ErrSyntax => .error .ErrSyntax
    | .error .ErrRange => cutoffCheck neg maxUint64
    | .ok un => cutoffCheck neg un

/-- Location of a `time.Time`. -/
inductive Location where
  | UTC
  | Local
  deriving DecidableEq, Repr

/-- A `time.Time` without monotonic reading: seconds since the Unix epoch, nanoseconds
within the second, and the location. -/
structure Time where
  sec : Int
  nsec : Int
  loc : Location
  deriving DecidableEq, Repr

/-- `time.Unix(sec, nsec)`: nanoseconds outside `[0, 1e9)` are carried into the seconds;
the result is in the local location. -/
def Unix (sec nsec : Int) : Time :=
  if nsec < 0 ∨ nsec ≥ 1000000000 then
    let n := Int.tdiv nsec 1000000000
    let sec := sec + n
    let nsec := nsec - n * 1000000000
    if nsec < 0 then ⟨sec - 1, nsec + 1000000000, .Local⟩ else ⟨sec, nsec, .Local⟩
  else ⟨sec, nsec, .Local⟩

/-- `t.UTC()`: the same instant with the location set to UTC. -/
def Time.toUTC (t : Time) : Time := { t with loc := .UTC }

/-- The zero value `time.Time{}`: January 1, year 1, 00:00:00 UTC. -/
def Time.zero : Time := ⟨-62135596800, 0, .UTC⟩

/-- `t.After(u)` is false: `t` is not later than `u`. -/
def Time.notAfter (t u : Time) : Prop :=
  t.sec < u.sec ∨ (t.sec = u.sec ∧ t.nsec ≤ u.nsec)

/-- `isLeap` of package time. -/
def isLeap (year : Int) : Bool :=
  year % 4 = 0 ∧ (year % 100 ≠ 0 ∨ year % 400 = 0)

/-- The table `daysBefore` of package time: days in a non-leap year before month `m+1`. -/
def daysBefore : List Int := [0, 31, 59, 90, 120, 151, 181, 212, 243, 273, 304, 334, 365]

/-- Days from 0001-01-01 to January 1 of `year` in the proleptic Gregorian calendar. -/
def daysSinceYearOne (year : Int) : Int :=
  let y := year - 1
  365 * y + y / 4 - y / 100 + y / 400

/-- `time.Date(year, month, day, hour, min, sec, nsec, loc)` for UTC and for arguments within
their normal ranges (the normalisation of overflowing fields is not embedded).  Day 719162
after 0001-01-01 is 1970-01-01. -/
def Date (year month day hour min sec nsec : Int) (loc : Location) : Time :=
  let d := daysSinceYearOne year + daysBefore.getD (month - 1).toNat 0
  let d := if isLeap year ∧ month ≥ 3 then d + 1 else d
  let d := d + (day - 1)
  ⟨(d - 719162) * 86400 + hour * 3600 + min * 60 + sec, nsec, loc⟩

/-- Seconds between 1601-01-01 and 1970-01-01. -/
def windowsEpochOffset : Int := 11644473600

/-- Number of 100ns intervals in a second. -/
def hundredNanosecondsPerSecond : Int := 10000000

/-- `FileTimeToGoTime`: parse the string as an `int64`, divide by
`hundredNanosecondsPerSecond` (Go's truncated `/`), subtract `windowsEpochOffset`, and build
the UTC time; `int64` arithmetic wraps.  On a parse error the Go function returns the zero
time together with the error; here that is `Except.error`. -/
def FileTimeToGoTime (fileTimeStr : String) : Except NumError Time :=
  match ParseInt fileTimeStr with
  | .error e => .error e
  | .ok fileTimeInt =>
    let unixTimestamp :=
      wrapInt64 (wrapInt64 (Int.tdiv fileTimeInt hundredNanosecondsPerSecond) - windowsEpochOffset)
    .ok (Unix unixTimestamp 0).toUTC

/-! ## Sync configuration -/

/-- A value of dynamic type in the tree that `yaml.Unmarshal` builds for the
`map[string]interface{}` of `main`.  `null` is the nil interface, which is also what indexing
a map at an absent key gives. -/
inductive Value where
  | null
  | bool (b : Bool)
  | int (i : Int)
  | str (s : String)
  | seq (xs : List Value)
  | map (kv : List (String × Value))

/-- Go map indexing `m[key]`: the stored value, or the nil interface when the key is absent. -/
def index (m : List (String × Value)) (key : String) : Value :=
  (m.lookup key).getD .null

/-- The name of the dynamic type of a value, as the run-time writes it in a panic. -/
def dynType : Value → String
  | .null => "nil"
  | .bool _ => "bool"
  | .int _ => "int"
  | .str _ => "string"
  | .seq _ => "[]interface \x7b\x7d"
  | .map _ => "map[string]interface \x7b\x7d"

/-- The message of the panic of a failed type assertion `v.(want)`. -/
def conversionPanic (v : Value) (want : String) : String :=
  "interface conversion: interface \x7b\x7d is " ++ dynType v ++ ", not " ++ want

/-- The type assertion `v.(map[string]interface{})`; the error is the run-time panic. -/
def assertMap : Value → Except String (List (String × Value))
  | .map kv => .ok kv
  | v => .error (conversionPanic v "map[string]interface \x7b\x7d")

/-- The type assertion `v.(string)`; the error is the run-time panic. -/
def assertString : Value → Except String String
  | .str s => .ok s
  | v => .error (conversionPanic v "string")

/-- The type assertion `v.([]any)`; the error is the run-time panic. -/
def assertSlice : Value → Except String (List Value)
  | .seq xs => .ok xs
  | v => .error (conversionPanic v "[]interface \x7b\x7d")

/-- The verb `%s` of `fmt.Sprintf` on an operand of dynamic type: a string is written as it
is; what fmt writes for an operand of another type (`%!s(int=5)` and the like) is the
parameter `other`. -/
def verbS (other : Value → String) : Value → String
  | .str s => s
  | v => other v

/-! ## Directory client -/

/-- The alias dereferencing constants of package ldap. -/
inductive DerefAliases where
  | NeverDerefAliases
  | DerefInSearching
  | DerefFindingBaseObj
  | DerefAlways
  deriving DecidableEq, Repr

/-- The search scope constants of package ldap. -/
inductive Scope where
  | ScopeBaseObject
  | ScopeSingleLevel
  | ScopeWholeSubtree
  deriving DecidableEq, Repr

/-- The fields `ldap.NewSearchRequest` is given in `searchUser` (the controls are nil). -/
structure SearchRequest where
  BaseDN : String
  Scope : Scope
  DerefAliases : DerefAliases
  SizeLimit : Nat
  TimeLimit : Nat
  TypesOnly : Bool
  Filter : String
  Attributes : List String
  deriving DecidableEq, Repr

/-- An attribute of a directory entry: `ldap.EntryAttribute`. -/
structure EntryAttribute where
  Name : String
  Values : List String
  deriving DecidableEq, Repr

/-- A directory entry: `ldap.Entry`. -/
structure Entry where
  DN : String
  Attributes : List EntryAttribute
  deriving DecidableEq, Repr

/-- `Entry.GetAttributeValues`: the values of the first attribute with exactly this name. -/
def Entry.GetAttributeValues (e : Entry) (attr : String) : List String :=
  match e.Attributes.find? (fun a => a.Name = attr) with
  | some a => a.Values
  | none => []

/-- `Entry.GetAttributeValue`: the first value of the attribute, or the empty string. -/
def Entry.GetAttributeValue (e : Entry) (attr : String) : String :=
  match e.GetAttributeValues attr with
  | [] => ""
  | v :: _ => v

/-! ## Run state -/

/-- A call to one of the two remote services. -/
inductive Call where
  | Search (req : SearchRequest)
  | IdentitiesDelete (name : String)
  | UsersDelete (name : String)
  deriving DecidableEq, Repr

/-- Is the call a directory query? -/
def Call.isSearch : Call → Bool
  | .Search _ => true
  | _ => false

/-- Is the call an identity delete? -/
def Call.isIdentitiesDelete : Call → Bool
  | .IdentitiesDelete _ => true
  | _ => false

/-- Is the call a user delete? -/
def Call.isUsersDelete : Call → Bool
  | .UsersDelete _ => true
  | _ => false

/-- The levels of slog. -/
inductive Level where
  | Debug
  | Info
  | Warn
  | Error
  deriving DecidableEq, Repr

/-- A call to slog: level, message, and the decoded times among its attributes (the other
attributes are left out). -/
structure LogRecord where
  level : Level
  msg : String
  times : List Time
  deriving DecidableEq, Repr

/-- What is outside `osluc.go`: the directory connection, the two delete calls of the
identity store client, and fmt's rendering of non-string operands.  The directory has a state
of type `δ` and the identity store a state of type `ς`; each call answers from the current
state and may change it.  `Search` answers with entries or with an error; a delete answers
with `none` (nil error) or `some err`. -/
structure World (δ ς : Type) where
  Search : δ → SearchRequest → Except String (List Entry) × δ
  IdentitiesDelete : ς → String → Option String × ς
  UsersDelete : ς → String → Option String × ς
  other : Value → String

/-- How the process can stop early: a run-time panic, or `os.Exit(code)`. -/
inductive Fatal where
  | panic (msg : String)
  | exit (code : Nat)
  deriving DecidableEq, Repr

/-- What a call of `searchUser` leaves behind: its return value (or how the process
stopped), the state of the directory, the calls it issued and the records it logged, both in
order.  It is handed the directory connection only, so it cannot reach the identity store. -/
structure SearchOutcome (δ : Type) where
  result : Except Fatal Bool
  dir : δ
  calls : List Call
  logs : List LogRecord

/-- What a stretch of `main` leaves behind: whether it ran to its end (or how the process
stopped), the states of the directory and of the identity store, the calls it issued and the
records it logged, both in order. -/
structure Outcome (δ ς : Type) where
  result : Except Fatal Unit
  dir : δ
  store : ς
  calls : List Call
  logs : List LogRecord

/-- Sequencing: when `a` ran to its end, `k` continues from the remote states `a` left; when
`a` stopped the process, nothing follows. -/
def Outcome.andThen {δ ς : Type} (a : Outcome δ ς) (k : δ → ς → Outcome δ ς) : Outcome δ ς :=
  match a.result with
  | .error _ => a
  | .ok () =>
    let b := k a.dir a.store
    ⟨b.result, b.dir, b.store, a.calls ++ b.calls, a.logs ++ b.logs⟩

/-! ## searchUser -/

/-- The locals `searchUser` reads from the configuration. -/
structure UsersQuery where
  baseDN : String
  filter : String
  derefAliases : DerefAliases
  aadUserNames : List Value

/-- Lines 161-173 of `searchUser`: the unchecked type assertions, in source order.  Each
one panics when the key is absent or holds a value of another type. -/
def usersQuery (cfg : List (String × Value)) : Except String UsersQuery := do
  let aad ← assertMap (index cfg "augmentedActiveDirectory")
  let aadUq ← assertMap (index aad "usersQuery")
  let baseDN ← assertString (index aadUq "baseDN")
  let filter ← assertString (index aadUq "filter")
  let deref ← assertString (index aadUq "derefAliases")
  let derefAliases :=
    if deref = "always" then DerefAliases.DerefAlways else DerefAliases.NeverDerefAliases
  let aadUserNames ← assertSlice (index aad "userNameAttributes")
  return ⟨baseDN, filter, derefAliases, aadUserNames⟩

/-- Lines 174-177: `usernameFilter` starts as `"|"` and gets one `(%s=%s)` clause per
attribute appended, in order. -/
def usernameFilter (other : Value → String) (aadUserNames : List Value) (username : String) :
    String :=
  aadUserNames.foldl
    (fun acc filterUser => acc ++ "(" ++ verbS other filterUser ++ "=" ++ username ++ ")") "|"

/-- Lines 180-183: the username clauses in parentheses, and-ed with the base filter when that
is not empty. -/
def searchFilter (other : Value → String) (q : UsersQuery) (username : String) : String :=
  let searchFilter := "(" ++ usernameFilter other q.aadUserNames username ++ ")"
  if q.filter ≠ "" then "(&" ++ q.filter ++ searchFilter ++ ")" else searchFilter

/-- Lines 187-197: the search request. -/
def searchRequest (other : Value → String) (q : UsersQuery) (username : String) :
    SearchRequest :=
  { BaseDN := q.baseDN
    Scope := .ScopeWholeSubtree
    DerefAliases := q.derefAliases
    SizeLimit := 0
    TimeLimit := 0
    TypesOnly := false
    Filter := searchFilter other q username
    Attributes := ["dn", "cn", "lastLogon", "accountExpires", "sAMAccountName",
      "lastLogonTimestamp"] }

/-- The value a Go caller holds after `t, err := FileTimeToGoTime(..)`: the zero time when
`err` is not nil. -/
def timeOf (r : Except NumError Time) : Time :=
  match r with
  | .ok t => t
  | .error _ => Time.zero

/-- The error log after a failed conversion. -/
def errorLog (r : Except NumError Time) (msg : String) : List LogRecord :=
  match r with
  | .ok _ => []
  | .error _ => [⟨.Error, msg, []⟩]

/-- Lines 213-239: the body of the loop over the entries found.  It decodes three
attributes and writes log records; nothing else. -/
def entryLogs (entry : Entry) : List LogRecord :=
  let lastLogon := FileTimeToGoTime (entry.GetAttributeValue "lastlogon")
  let lastLogonTS := FileTimeToGoTime (entry.GetAttributeValue "lastlogontimestamp")
  let accountExpires := FileTimeToGoTime (entry.GetAttributeValue "accountexpires")
  errorLog lastLogon "Cannot convert FileTime for lastLogon attribute"
    ++ errorLog lastLogonTS "Cannot convert FileTime for lastLogonTimestamp attribute"
    ++ errorLog accountExpires "Cannot convert FileTime for accountExpires attribute"
    ++ [⟨.Debug, "Attributes", [timeOf lastLogon, timeOf lastLogonTS, timeOf accountExpires]⟩]

/-- `searchUser`: true when the user is not found.  A failed type assertion panics before
anything else happens; a failed search is logged and followed by `os.Exit(1)`. -/
def searchUser {δ ς : Type} (W : World δ ς) (cfg : List (String × Value)) (username : String)
    (dir : δ) : SearchOutcome δ :=
  match usersQuery cfg with
  | .error msg => ⟨.error (.panic msg), dir, [], []⟩
  | .ok q =>
    let req := searchRequest W.other q username
    match W.Search dir req with
    | (.error _, dir) =>
      ⟨.error (.exit 1), dir, [.Search req],
        [⟨.Debug, "Using LDAP filter", []⟩, ⟨.Error, "LDAP search failed", []⟩]⟩
    | (.ok entries, dir) =>
      if entries.length = 0 then
        ⟨.ok true, dir, [.Search req],
          [⟨.Debug, "Using LDAP filter", []⟩,
            ⟨.Debug, "User not found in LDAP, can be removed", []⟩]⟩
      else
        ⟨.ok false, dir, [.Search req],
          [⟨.Debug, "Using LDAP filter", []⟩,
            ⟨.Debug, "User found in LDAP, checking user attributes", []⟩]
            ++ entries.flatMap entryLogs⟩

/-! ## The check-and-delete loop of main -/

/-- The environment configuration `Config`. -/
structure Config where
  LogLevel : String
  IdentityPrefix : String
  Kubeconfig : String
  LDAPSyncConfigPath : String
  Confirm : Bool

/-- A user of the identity store: the fields of `userv1.User` the loop reads. -/
structure User where
  Name : String
  Identities : List String
  deriving DecidableEq, Repr

/-- `strings.HasPrefix(s, prefix)`. -/
def HasPrefix (s pre : String) : Bool := pre.data.isPrefixOf s.data

/-- Lines 97-112 of `main`: delete the identity; only when that returned a nil error, delete
the user.  Neither failure stops the process. -/
def mainDelete {δ ς : Type} (W : World δ ς) (user : User) (id : String) (dir : δ)
    (store : ς) : Outcome δ ς :=
  match W.IdentitiesDelete store id with
  | (some _, store) =>
    ⟨.ok (), dir, store, [.IdentitiesDelete id],
      [⟨.Debug, "Deleting identity", []⟩, ⟨.Error, "Unable to delete identity", []⟩]⟩
  | (none, store) =>
    match W.UsersDelete store user.Name with
    | (some _, store) =>
      ⟨.ok (), dir, store, [.IdentitiesDelete id, .UsersDelete user.Name],
        [⟨.Debug, "Deleting identity", []⟩, ⟨.Info, "Successfully deleted identity", []⟩,
          ⟨.Debug, "Deleting user", []⟩, ⟨.Error, "Unable to delete user", []⟩]⟩
    | (none, store) =>
      ⟨.ok (), dir, store, [.IdentitiesDelete id, .UsersDelete user.Name],
        [⟨.Debug, "Deleting identity", []⟩, ⟨.Info, "Successfully deleted identity", []⟩,
          ⟨.Debug, "Deleting user", []⟩, ⟨.Info, "Successfully deleted user", []⟩]⟩

/-- Lines 92-121 of `main`: the body of the loop over the identities of a user. -/
def mainIdentity {δ ς : Type} (W : World δ ς) (cfg : Config)
    (ldapSyncCfg : List (String × Value)) (user : User) (id : String) (dir : δ) (store : ς) :
    Outcome δ ς :=
  if HasPrefix id cfg.IdentityPrefix then
    let found := searchUser W ldapSyncCfg user.Name dir
    let searched : Outcome δ ς :=
      ⟨.ok (), found.dir, store, found.calls,
        ⟨.Debug, "Found User with correct prefix, searching in LDAP", []⟩ :: found.logs⟩
    match found.result with
    | .error f => { searched with result := .error f }
    | .ok true =>
      let announced : Outcome δ ς :=
        { searched with logs := searched.logs ++ [⟨.Info, "Remove User and identity", []⟩] }
      if cfg.Confirm then announced.andThen (mainDelete W user id) else announced
    | .ok false => searched
  else ⟨.ok (), dir, store, [], [⟨.Debug, "User identity prefix is wrong, skipping", []⟩]⟩

/-- Line 91 of `main`: `for _, id := range user.Identities`; a panic or exit stops it. -/
def mainIdentities {δ ς : Type} (W : World δ ς) (cfg : Config)
    (ldapSyncCfg : List (String × Value)) (user : User) : List String → δ → ς → Outcome δ ς
  | [], dir, store => ⟨.ok (), dir, store, [], []⟩
  | id :: ids, dir, store =>
    (mainIdentity W cfg ldapSyncCfg user id dir store).andThen
      (mainIdentities W cfg ldapSyncCfg user ids)

/-- Lines 89-125 of `main`: the body of the loop over the users. -/
def mainUser {δ ς : Type} (W : World δ ς) (cfg : Config)
    (ldapSyncCfg : List (String × Value)) (user : User) (dir : δ) (store : ς) : Outcome δ ς :=
  if user.Identities.length = 1 then
    mainIdentities W cfg ldapSyncCfg user user.Identities dir store
  else
    ⟨.ok (), dir, store, [],
      [⟨.Debug, "Skipping user due to identity count mismatch", []⟩]⟩

/-- Line 88 of `main`: `for _, user := range users.Items`; a panic or exit stops it. -/
def mainLoop {δ ς : Type} (W : World δ ς) (cfg : Config)
    (ldapSyncCfg : List (String × Value)) : List User → δ → ς → Outcome δ ς
  | [], dir, store => ⟨.ok (), dir, store, [], []⟩
  | user :: users, dir, store =>
    (mainUser W cfg ldapSyncCfg user dir store).andThen (mainLoop W cfg ldapSyncCfg users)

/-! ## Vocabulary of the statements -/

/-- The number a list of decimal digits denotes, most significant digit first. -/
def decimalValue (ds : List Char) : Nat :=
  ds.foldl (fun n c => n * 10 + (c.toNat - 48)) 0

/-- The fold behind `decimalValue`, from an arbitrary accumulator. -/
def valueFrom (ds : List Char) (n : Nat) : Nat :=
  ds.foldl (fun n c => n * 10 + (c.toNat - 48)) n

/-- The filter clauses `(a1=u)...(an=u)`, one per attribute name, in order. -/
def clauses (attrs : List String) (u : String) : String :=
  String.join (attrs.map (fun a => "(" ++ a ++ "=" ++ u ++ ")"))

/-- A valid integer string: an optional sign `+` or `-` followed by at least one decimal
digit `0`..`9`, and nothing else. -/
def isIntegerString (s : String) : Bool :=
  match s.data with
  | [] => false
  | c :: rest =>
    let body := if c = '+' ∨ c = '-' then rest else c :: rest
    !body.isEmpty && body.all Char.isDigit

/-! ## Example data -/

/-- A sync configuration tree; `deref` is what the key `derefAliases` holds and `filter` what
the key `filter` holds. -/
def sampleSync (deref filter : Value) : List (String × Value) :=
  [("kind", .str "LDAPSyncConfig"),
   ("url", .str "ldaps://ad.example.com"),
   ("bindDN", .str "cn=osluc,dc=example,dc=com"),
   ("bindPassword", .map [("file", .str "/etc/secrets/bindPassword")]),
   ("augmentedActiveDirectory", .map
      [("usersQuery", .map
          [("baseDN", .str "dc=example,dc=com"),
           ("scope", .str "sub"),
           ("derefAliases", deref),
           ("filter", filter)]),
       ("userNameAttributes", .seq [.str "sAMAccountName", .str "cn"])])]

/-- The same tree with no key `derefAliases` at all. -/
def sampleSyncNoDeref : List (String × Value) :=
  [("url", .str "ldaps://ad.example.com"),
   ("bindDN", .str "cn=osluc,dc=example,dc=com"),
   ("bindPassword", .map [("file", .str "/etc/secrets/bindPassword")]),
   ("augmentedActiveDirectory", .map
      [("usersQuery", .map
          [("baseDN", .str "dc=example,dc=com"),
           ("filter", .str "(objectClass=person)")]),
       ("userNameAttributes", .seq [.str "sAMAccountName", .str "cn"])])]

/-- What `searchUser` reads from `sampleSync (.str "never") (.str "(objectClass=person)")`. -/
def sampleQuery : UsersQuery :=
  ⟨"dc=example,dc=com", "(objectClass=person)", .NeverDerefAliases,
    [.str "sAMAccountName", .str "cn"]⟩

/-- An environment configuration with the identity prefix `ldap:`. -/
def sampleConfig (confirm : Bool) : Config := ⟨"INFO", "ldap:", "", "sync.yaml", confirm⟩

/-- The directory entry of bob: a last logon, no `lastLogonTimestamp`, an account that never
expires. -/
def bobEntry : Entry :=
  ⟨"cn=bob,dc=example,dc=com",
    [⟨"cn", ["bob"]⟩, ⟨"lastLogon", ["133753723630000000"]⟩,
     ⟨"accountExpires", ["9223372036854775807"]⟩, ⟨"sAMAccountName", ["bob"]⟩]⟩

/-- A world in which the directory knows bob only, the identity `ldap:carol` cannot be
deleted, and every other delete succeeds; the state of the identity store is the list of the
names deleted so far. -/
def sampleWorld : World Unit (List String) where
  Search := fun d req =>
    if req.Filter = "(&(objectClass=person)(|(sAMAccountName=bob)(cn=bob)))" then
      (.ok [bobEntry], d)
    else (.ok [], d)
  IdentitiesDelete := fun st name =>
    if name = "ldap:carol" then (some "forbidden", st) else (none, st ++ [name])
  UsersDelete := fun st name => (none, st ++ [name])
  other := fun _ => "%!s(?)"

/-- A user with one `ldap:` identity who is not in the directory. -/
def alice : User := ⟨"alice", ["ldap:alice"]⟩

/-- A user with one `ldap:` identity who is in the directory. -/
def bob : User := ⟨"bob", ["ldap:bob"]⟩

/-- A user with one `ldap:` identity, not in the directory, whose identity cannot be
deleted. -/
def carol : User := ⟨"carol", ["ldap:carol"]⟩

/-- A user with two identities. -/
def dave : User := ⟨"dave", ["ldap:dave", "github:dave"]⟩

/-- A user with one identity of another provider. -/
def erin : User := ⟨"erin", ["htpasswd:erin"]⟩

/-! ## Facts about the time codec -/

theorem isDigit_iff (c : Char) : c.isDigit = true ↔ 48 ≤ c.toNat ∧ c.toNat ≤ 57 := by
  simp [Char.isDigit, Char.toNat, UInt32.le_def, BitVec.le_def, UInt32.toNat]

theorem digitOf_digit (c : Char) (h : c.isDigit = true) : digitOf c = some (c.toNat - 48) := by
  have h' := (isDigit_iff c).1 h
  simp [digitOf, h']

theorem digitOf_nondigit (c : Char) (h : c.isDigit = false) :
    digitOf c = none ∨ ∃ d, digitOf c = some d ∧ d ≥ 10 := by
  have h' : ¬ (48 ≤ c.toNat ∧ c.toNat ≤ 57) := by
    rw [← isDigit_iff]; simp [h]
  unfold digitOf
  rw [if_neg h']
  by_cases h1 : 97 ≤ lower c.toNat ∧ lower c.toNat ≤ 122
  · rw [if_pos h1]; exact Or.inr ⟨_, rfl, by omega⟩
  · rw [if_neg h1]; exact Or.inl rfl

theorem parseUintLoop_nondigit (c : Char) (cs : List Char) (n : Nat) (h : c.isDigit = false) :
    parseUintLoop (c :: cs) n = .error .ErrSyntax := by
  unfold parseUintLoop
  rcases digitOf_nondigit c h with h0 | ⟨d, h0, hd⟩
  · simp only [h0]
  · simp only [h0, hd, if_true]

theorem le_valueFrom (ds : List Char) (n : Nat) : n ≤ valueFrom ds n := by
  induction ds generalizing n with
  | nil => simp [valueFrom]
  | cons c cs ih =>
    have := ih (n * 10 + (c.toNat - 48))
    simp only [valueFrom, List.foldl_cons] at this ⊢
    omega

theorem parseUintLoop_digits (ds : List Char) (n : Nat) (hd : ∀ c ∈ ds, c.isDigit = true)
    (hn : n ≤ maxUint64) :
    parseUintLoop ds n =
      if valueFrom ds n ≤ maxUint64 then .ok (valueFrom ds n) else .error .ErrRange := by
  induction ds generalizing n with
  | nil => simp [parseUintLoop, valueFrom, hn]
  | cons c cs ih =>
    have hc := hd c (List.mem_cons_self _ _)
    have hc' := (isDigit_iff c).1 hc
    have hmono := le_valueFrom cs (n * 10 + (c.toNat - 48))
    have hstep : valueFrom (c :: cs) n = valueFrom cs (n * 10 + (c.toNat - 48)) := by
      simp [valueFrom]
    rw [hstep]
    unfold parseUintLoop
    simp only [digitOf_digit c hc]
    have hd10 : ¬ (c.toNat - 48 ≥ 10) := by omega
    rw [if_neg hd10]
    have hmax : maxUint64 = 18446744073709551615 := by decide
    have hpow : (2 : Nat) ^ 64 = 18446744073709551616 := by decide
    rw [hmax] at hn ⊢
    rw [hpow]
    by_cases hcut : n ≥ 18446744073709551615 / 10 + 1
    · have : ¬ (valueFrom cs (n * 10 + (c.toNat - 48)) ≤ 18446744073709551615) := by omega
      rw [if_pos hcut, if_neg this]
    · rw [if_neg hcut]
      by_cases hover : n * 10 + (c.toNat - 48) ≥ 18446744073709551616
      · have h1 : (n * 10 + (c.toNat - 48)) % 18446744073709551616 < n * 10 ∨
            (n * 10 + (c.toNat - 48)) % 18446744073709551616 > 18446744073709551615 := by
          left; omega
        have : ¬ (valueFrom cs (n * 10 + (c.toNat - 48)) ≤ 18446744073709551615) := by omega
        rw [if_pos h1, if_neg this]
      · have h1 : (n * 10 + (c.toNat - 48)) % 18446744073709551616 = n * 10 + (c.toNat - 48) := by
          omega
        have h2 : ¬ (n * 10 + (c.toNat - 48) < n * 10 ∨
            n * 10 + (c.toNat - 48) > 18446744073709551615) := by
          omega
        rw [h1, if_neg h2]
        have := ih (n * 10 + (c.toNat - 48)) (fun x hx => hd x (List.mem_cons_of_mem _ hx))
          (by rw [hmax]; omega)
        rw [hmax] at this
        exact this

theorem parseUintLoop_bad (ds : List Char) (n : Nat) (hbad : ds.all Char.isDigit = false) :
    ∃ e, parseUintLoop ds n = .error e := by
  induction ds generalizing n with
  | nil => simp at hbad
  | cons c cs ih =>
    cases hc : c.isDigit with
    | false => exact ⟨_, parseUintLoop_nondigit c cs n hc⟩
    | true =>
      have hcs : cs.all Char.isDigit = false := by
        simpa [List.all_cons, hc] using hbad
      unfold parseUintLoop
      simp only [digitOf_digit c hc]
      split_ifs
      · exact ⟨_, rfl⟩
      · exact ⟨_, rfl⟩
      · exact ⟨_, rfl⟩
      · exact ih _ hcs

theorem wrapInt64_range (x : Int) : -2 ^ 63 ≤ wrapInt64 x ∧ wrapInt64 x < 2 ^ 63 := by
  unfold wrapInt64; omega

theorem wrapInt64_id (x : Int) (h1 : -2 ^ 63 ≤ x) (h2 : x < 2 ^ 63) : wrapInt64 x = x := by
  unfold wrapInt64; omega

theorem cutoffCheck_range (neg : Bool) (un : Nat) (v : Int) (h : cutoffCheck neg un = .ok v) :
    -2 ^ 63 ≤ v ∧ v < 2 ^ 63 := by
  unfold cutoffCheck at h
  split_ifs at h
  · injection h with h; subst h; exact wrapInt64_range _
  · injection h with h; subst h; exact wrapInt64_range _

theorem cutoffCheck_max (neg : Bool) : cutoffCheck neg maxUint64 = .error .ErrRange := by
  cases neg <;> rfl

theorem ParseInt_range (s : String) (v : Int) (h : ParseInt s = .ok v) :
    -2 ^ 63 ≤ v ∧ v < 2 ^ 63 := by
  unfold ParseInt at h
  split at h
  · exact absurd h (by simp)
  · simp only at h
    split at h
    · exact absurd h (by simp)
    · exact cutoffCheck_range _ _ _ h
    · exact cutoffCheck_range _ _ _ h

theorem ParseInt_digits (ds : List Char) (hne : ds ≠ []) (hd : ∀ c ∈ ds, c.isDigit = true)
    (hr : decimalValue ds < 2 ^ 63) : ParseInt (String.mk ds) = .ok (decimalValue ds : Int) := by
  obtain ⟨c, cs, rfl⟩ := List.exists_cons_of_ne_nil hne
  have hc := hd c (List.mem_cons_self _ _)
  have hplus : c ≠ '+' := by rintro rfl; exact absurd hc (by decide)
  have hminus : c ≠ '-' := by rintro rfl; exact absurd hc (by decide)
  have hv : valueFrom (c :: cs) 0 = decimalValue (c :: cs) := rfl
  have hloop := parseUintLoop_digits (c :: cs) 0 hd (by decide)
  rw [hv] at hloop
  have hmax : maxUint64 = 18446744073709551615 := by decide
  have hle : decimalValue (c :: cs) ≤ maxUint64 := by rw [hmax]; omega
  rw [if_pos hle] at hloop
  have hbody : (if c = '+' ∨ c = '-' then cs else c :: cs) = c :: cs := by
    rw [if_neg]; simp [hplus, hminus]
  have hneg : decide (c = '-') = false := by simp [hminus]
  have hU : ParseUint (c :: cs) = .ok (decimalValue (c :: cs)) := hloop
  have hcheck : cutoffCheck false (decimalValue (c :: cs)) = .ok (decimalValue (c :: cs) : Int) := by
    unfold cutoffCheck
    have h1 : ¬ (false = false ∧ decimalValue (c :: cs) ≥ 2 ^ 63) := by omega
    have h2 : ¬ (false = true ∧ decimalValue (c :: cs) > 2 ^ 63) := by simp
    rw [if_neg h1, if_neg h2]
    simp only [Bool.false_eq_true, if_false]
    rw [wrapInt64_id _ (by omega) (by omega)]
  unfold ParseInt
  simp only [hbody, hneg, hU, hcheck]

theorem ParseInt_bad (s : String) (h : isIntegerString s = false) :
    ∃ e, ParseInt s = .error e := by
  unfold isIntegerString at h
  unfold ParseInt
  split at h
  · rename_i heq; exact ⟨.ErrSyntax, by simp only [heq]⟩
  · rename_i c rest heq
    simp only [heq]
    generalize hb : (if c = '+' ∨ c = '-' then rest else c :: rest) = body at h ⊢
    have hU : ∃ e, ParseUint body = .error e := by
      cases body with
      | nil => exact ⟨.ErrSyntax, rfl⟩
      | cons x xs =>
        have hall : (x :: xs).all Char.isDigit = false := by simpa using h
        exact parseUintLoop_bad (x :: xs) 0 hall
    obtain ⟨e, he⟩ := hU
    cases e with
    | ErrSyntax => exact ⟨.ErrSyntax, by simp only [he]⟩
    | ErrRange => exact ⟨.ErrRange, by simp only [he, cutoffCheck_max]⟩

theorem tdiv_mono (a b : Int) (h : a ≤ b) : Int.tdiv a 10000000 ≤ Int.tdiv b 10000000 := by
  rcases le_or_lt 0 a with ha | ha
  · rw [Int.tdiv_eq_ediv ha (by norm_num), Int.tdiv_eq_ediv (by omega) (by norm_num)]
    omega
  · have e1 : Int.tdiv a 10000000 = -((-a) / 10000000) := by
      rw [← Int.tdiv_eq_ediv (by omega) (by norm_num), Int.neg_tdiv, neg_neg]
    rcases le_or_lt 0 b with hb | hb
    · rw [e1, Int.tdiv_eq_ediv hb (by norm_num)]; omega
    · have e2 : Int.tdiv b 10000000 = -((-b) / 10000000) := by
        rw [← Int.tdiv_eq_ediv (by omega) (by norm_num), Int.neg_tdiv, neg_neg]
      rw [e1, e2]; omega

theorem tdiv_bounds (a : Int) (h1 : -2 ^ 63 ≤ a) (h2 : a < 2 ^ 63) :
    -922337203685 ≤ Int.tdiv a 10000000 ∧ Int.tdiv a 10000000 ≤ 922337203685 := by
  have hlo := tdiv_mono (-2 ^ 63) a h1
  have hhi := tdiv_mono a (2 ^ 63 - 1) (by omega)
  have e1 : Int.tdiv (-2 ^ 63) 10000000 = -922337203685 := by decide
  have e2 : Int.tdiv (2 ^ 63 - 1) 10000000 = 922337203685 := by decide
  rw [e1] at hlo; rw [e2] at hhi
  exact ⟨hlo, hhi⟩

/-- On a string that parses, no `int64` operation of `FileTimeToGoTime` wraps: the result is
the UTC time at `v / 10000000 - 11644473600` Unix seconds, with no nanoseconds. -/
theorem FileTimeToGoTime_of_ParseInt (s : String) (v : Int) (h : ParseInt s = .ok v) :
    FileTimeToGoTime s = .ok ⟨Int.tdiv v 10000000 - 11644473600, 0, .UTC⟩ := by
  obtain ⟨h1, h2⟩ := ParseInt_range s v h
  obtain ⟨h3, h4⟩ := tdiv_bounds v h1 h2
  have e1 : wrapInt64 (Int.tdiv v 10000000) = Int.tdiv v 10000000 :=
    wrapInt64_id _ (by omega) (by omega)
  have e2 : wrapInt64 (Int.tdiv v 10000000 - 11644473600) = Int.tdiv v 10000000 - 11644473600 :=
    wrapInt64_id _ (by omega) (by omega)
  simp [FileTimeToGoTime, h, hundredNanosecondsPerSecond, windowsEpochOffset, e1, e2, Unix,
    Time.toUTC]

/-! ## Facts about searchUser and the loop -/

theorem andThen_ok {δ ς : Type} (a : Outcome δ ς) (k : δ → ς → Outcome δ ς)
    (h : a.result = .ok ()) :
    a.andThen k =
      ⟨(k a.dir a.store).result, (k a.dir a.store).dir, (k a.dir a.store).store,
        a.calls ++ (k a.dir a.store).calls, a.logs ++ (k a.dir a.store).logs⟩ := by
  unfold Outcome.andThen
  rw [h]

theorem andThen_error {δ ς : Type} (a : Outcome δ ς) (k : δ → ς → Outcome δ ς) (f : Fatal)
    (h : a.result = .error f) : a.andThen k = a := by
  unfold Outcome.andThen
  rw [h]

theorem andThen_assoc {δ ς : Type} (a : Outcome δ ς) (k k' : δ → ς → Outcome δ ς) :
    (a.andThen k).andThen k' = a.andThen (fun d st => (k d st).andThen k') := by
  cases ha : a.result with
  | error f => rw [andThen_error a k f ha, andThen_error a k' f ha, andThen_error a _ f ha]
  | ok u =>
    cases u
    rw [andThen_ok a k ha, andThen_ok a _ ha]
    cases hk : (k a.dir a.store).result with
    | error f =>
      rw [andThen_error _ k' f (by simp [hk])]
      simp [andThen_error _ k' f hk, hk]
    | ok u =>
      cases u
      rw [andThen_ok _ k' (by simp [hk]), andThen_ok _ k' hk]
      simp [List.append_assoc]

theorem andThen_done {δ ς : Type} (a : Outcome δ ς) :
    a.andThen (fun d st => ⟨.ok (), d, st, [], []⟩) = a := by
  cases ha : a.result with
  | error f => exact andThen_error a _ f ha
  | ok u =>
    cases u
    rw [andThen_ok a _ ha]
    cases a
    simp at ha ⊢
    exact ha.symm

/-- The loop over a concatenation: the run over the first part, and, when that ran to its
end, the run over the second part from the remote states the first left. -/
theorem mainLoop_append {δ ς : Type} (W : World δ ς) (cfg : Config)
    (ldapSyncCfg : List (String × Value)) (us1 us2 : List User) (dir : δ) (store : ς) :
    mainLoop W cfg ldapSyncCfg (us1 ++ us2) dir store =
      (mainLoop W cfg ldapSyncCfg us1 dir store).andThen (mainLoop W cfg ldapSyncCfg us2) := by
  induction us1 generalizing dir store with
  | nil =>
    simp only [List.nil_append, mainLoop]
    rw [andThen_ok _ _ rfl]
    simp
  | cons u us ih =>
    simp only [List.cons_append, mainLoop]
    rw [andThen_assoc]
    congr 1
    funext d st
    exact ih d st

/-- The same for a world whose answers do not depend on a state: the calls over
`us1 ++ us2` are the calls over `us1` followed by the calls over `us2`, when the run over
`us1` reaches its end. -/
theorem mainLoop_append_stateless (W : World Unit Unit) (cfg : Config)
    (ldapSyncCfg : List (String × Value)) (us1 us2 : List User)
    (h : (mainLoop W cfg ldapSyncCfg us1 () ()).result = .ok ()) :
    (mainLoop W cfg ldapSyncCfg (us1 ++ us2) () ()).calls =
      (mainLoop W cfg ldapSyncCfg us1 () ()).calls ++
        (mainLoop W cfg ldapSyncCfg us2 () ()).calls := by
  rw [mainLoop_append, andThen_ok _ _ h]

theorem mainDelete_result {δ ς : Type} (W : World δ ς) (user : User) (id : String) (dir : δ)
    (store : ς) : (mainDelete W user id dir store).result = .ok () := by
  unfold mainDelete
  split
  · rfl
  · split <;> rfl

theorem mainDelete_calls {δ ς : Type} (W : World δ ς) (user : User) (id : String) (dir : δ)
    (store : ς) :
    (mainDelete W user id dir store).calls =
      .IdentitiesDelete id ::
        (if (W.IdentitiesDelete store id).1 = none then [.UsersDelete user.Name] else []) := by
  unfold mainDelete
  split
  · rename_i h; simp [h]
  · rename_i h
    split <;> simp [h]

theorem searchUser_calls {δ ς : Type} (W : World δ ς) (cfg : List (String × Value))
    (username : String) (dir : δ) :
    ∀ c ∈ (searchUser W cfg username dir).calls, c.isSearch = true := by
  unfold searchUser
  split
  · simp
  · dsimp only
    split
    · simp [Call.isSearch]
    · split <;> simp [Call.isSearch]

theorem searchUser_found {δ ς : Type} (W : World δ ς) (cfg : List (String × Value))
    (username : String) (dir dir' : δ) (q : UsersQuery) (entries : List Entry)
    (hq : usersQuery cfg = .ok q)
    (hs : W.Search dir (searchRequest W.other q username) = (.ok entries, dir')) :
    (searchUser W cfg username dir).result = .ok (decide (entries.length = 0)) ∧
    (searchUser W cfg username dir).dir = dir' ∧
    (searchUser W cfg username dir).calls = [.Search (searchRequest W.other q username)] := by
  unfold searchUser
  simp only [hq, hs]
  split <;> simp [*]

theorem mainUser_single {δ ς : Type} (W : World δ ς) (cfg : Config)
    (ldapSyncCfg : List (String × Value)) (user : User) (id : String) (dir : δ) (store : ς)
    (hid : user.Identities = [id]) :
    mainUser W cfg ldapSyncCfg user dir store =
      mainIdentity W cfg ldapSyncCfg user id dir store := by
  unfold mainUser
  rw [hid]
  simp only [List.length_singleton, if_true, mainIdentities]
  exact andThen_done _

theorem mainUser_count_mismatch {δ ς : Type} (W : World δ ς) (cfg : Config)
    (ldapSyncCfg : List (String × Value)) (user : User) (dir : δ) (store : ς)
    (h : user.Identities.length ≠ 1) :
    mainUser W cfg ldapSyncCfg user dir store =
      ⟨.ok (), dir, store, [],
        [⟨.Debug, "Skipping user due to identity count mismatch", []⟩]⟩ := by
  unfold mainUser
  rw [if_neg h]

theorem mainIdentity_other_provider {δ ς : Type} (W : World δ ς) (cfg : Config)
    (ldapSyncCfg : List (String × Value)) (user : User) (id : String) (dir : δ) (store : ς)
    (h : HasPrefix id cfg.IdentityPrefix = false) :
    mainIdentity W cfg ldapSyncCfg user id dir store =
      ⟨.ok (), dir, store, [], [⟨.Debug, "User identity prefix is wrong, skipping", []⟩]⟩ := by
  unfold mainIdentity
  simp [h]

/-- The body for an identity with the prefix, when the directory answers with entries. -/
theorem mainIdentity_present {δ ς : Type} (W : World δ ς) (cfg : Config)
    (ldapSyncCfg : List (String × Value)) (user : User) (id : String) (dir dir' : δ) (store : ς)
    (q : UsersQuery) (entries : List Entry)
    (hpre : HasPrefix id cfg.IdentityPrefix = true)
    (hq : usersQuery ldapSyncCfg = .ok q)
    (hs : W.Search dir (searchRequest W.other q user.Name) = (.ok entries, dir'))
    (hne : entries ≠ []) :
    (mainIdentity W cfg ldapSyncCfg user id dir store).result = .ok () ∧
    (mainIdentity W cfg ldapSyncCfg user id dir store).dir = dir' ∧
    (mainIdentity W cfg ldapSyncCfg user id dir store).store = store ∧
    (mainIdentity W cfg ldapSyncCfg user id dir store).calls =
      [.Search (searchRequest W.other q user.Name)] := by
  obtain ⟨h1, h2, h3⟩ := searchUser_found W ldapSyncCfg user.Name dir dir' q entries hq hs
  have hlen : decide (entries.length = 0) = false := by
    cases entries with
    | nil => exact absurd rfl hne
    | cons e es => simp
  rw [hlen] at h1
  unfold mainIdentity
  simp [hpre, h1, h2, h3]

/-- The body for an identity with the prefix, when the directory answers with no entry. -/
theorem mainIdentity_absent {δ ς : Type} (W : World δ ς) (cfg : Config)
    (ldapSyncCfg : List (String × Value)) (user : User) (id : String) (dir dir' : δ) (store : ς)
    (q : UsersQuery)
    (hpre : HasPrefix id cfg.IdentityPrefix = true)
    (hq : usersQuery ldapSyncCfg = .ok q)
    (hs : W.Search dir (searchRequest W.other q user.Name) = (.ok [], dir')) :
    (mainIdentity W cfg ldapSyncCfg user id dir store).result = .ok () ∧
    (mainIdentity W cfg ldapSyncCfg user id dir store).dir = dir' ∧
    (mainIdentity W cfg ldapSyncCfg user id dir store).store =
      (if cfg.Confirm then (mainDelete W user id dir' store).store else store) ∧
    (mainIdentity W cfg ldapSyncCfg user id dir store).calls =
      .Search (searchRequest W.other q user.Name) ::
        (if cfg.Confirm then (mainDelete W user id dir' store).calls else []) := by
  obtain ⟨h1, h2, h3⟩ := searchUser_found W ldapSyncCfg user.Name dir dir' q [] hq hs
  have hlen : decide (([] : List Entry).length = 0) = true := by simp
  rw [hlen] at h1
  unfold mainIdentity
  simp only [hpre, if_true, h1, h2, h3]
  cases hc : cfg.Confirm with
  | false => simp
  | true =>
    simp only [if_true]
    rw [andThen_ok _ _ rfl]
    have hd : (mainDelete W user id dir' store).dir = dir' := by
      unfold mainDelete
      split
      · rfl
      · split <;> rfl
    simp [mainDelete_result, hd]

theorem searchUser_failed {δ ς : Type} (W : World δ ς) (cfg : List (String × Value))
    (username : String) (dir dir' : δ) (q : UsersQuery) (e : String)
    (hq : usersQuery cfg = .ok q)
    (hs : W.Search dir (searchRequest W.other q username) = (.error e, dir')) :
    (searchUser W cfg username dir).result = .error (.exit 1) ∧
    (searchUser W cfg username dir).calls = [.Search (searchRequest W.other q username)] := by
  unfold searchUser
  simp [hq, hs]

theorem searchUser_panic {δ ς : Type} (W : World δ ς) (cfg : List (String × Value))
    (username : String) (dir : δ) (msg : String) (hq : usersQuery cfg = .error msg) :
    searchUser W cfg username dir = ⟨.error (.panic msg), dir, [], []⟩ := by
  unfold searchUser
  simp only [hq]

theorem searchUser_issues {δ ς : Type} (W : World δ ς) (cfg : List (String × Value))
    (username : String) (dir : δ) (q : UsersQuery) (hq : usersQuery cfg = .ok q) :
    (searchUser W cfg username dir).calls = [.Search (searchRequest W.other q username)] := by
  rcases hS : W.Search dir (searchRequest W.other q username) with ⟨r, dir'⟩
  cases r with
  | error e => exact (searchUser_failed W cfg username dir dir' q e hq hS).2
  | ok entries => exact (searchUser_found W cfg username dir dir' q entries hq hS).2.2

/-- The calls of the body for an identity with the prefix, under a well-typed
configuration: the query for the user's name, followed either by nothing or, in confirm mode,
by the calls of `mainDelete`. -/
theorem mainIdentity_shape {δ ς : Type} (W : World δ ς) (cfg : Config)
    (ldapSyncCfg : List (String × Value)) (user : User) (id : String) (dir : δ) (store : ς)
    (q : UsersQuery)
    (hpre : HasPrefix id cfg.IdentityPrefix = true)
    (hq : usersQuery ldapSyncCfg = .ok q) :
    (mainIdentity W cfg ldapSyncCfg user id dir store).calls =
        [.Search (searchRequest W.other q user.Name)] ∨
      ∃ dir', (mainIdentity W cfg ldapSyncCfg user id dir store).calls =
        .Search (searchRequest W.other q user.Name) :: (mainDelete W user id dir' store).calls := by
  rcases hS : W.Search dir (searchRequest W.other q user.Name) with ⟨r, dir'⟩
  cases r with
  | error e =>
    left
    obtain ⟨h1, h2⟩ := searchUser_failed W ldapSyncCfg user.Name dir dir' q e hq hS
    unfold mainIdentity
    simp [hpre, h1, h2]
  | ok entries =>
    cases entries with
    | nil =>
      obtain ⟨_, _, _, h4⟩ := mainIdentity_absent W cfg ldapSyncCfg user id dir dir' store q hpre hq hS
      cases hc : cfg.Confirm with
      | false => left; rw [h4, hc]; simp
      | true => right; exact ⟨dir', by rw [h4, hc]; simp⟩
    | cons e es =>
      left
      exact (mainIdentity_present W cfg ldapSyncCfg user id dir dir' store q (e :: es) hpre hq hS
        (by simp)).2.2.2

theorem mainIdentity_result_ok {δ ς : Type} (W : World δ ς) (cfg : Config)
    (ldapSyncCfg : List (String × Value)) (user : User) (id : String) (dir : δ) (store : ς)
    (q : UsersQuery)
    (hq : usersQuery ldapSyncCfg = .ok q)
    (hdir : ∀ d req, ∃ es d', W.Search d req = (.ok es, d')) :
    (mainIdentity W cfg ldapSyncCfg user id dir store).result = .ok () := by
  cases hpre : HasPrefix id cfg.IdentityPrefix with
  | false => rw [mainIdentity_other_provider W cfg ldapSyncCfg user id dir store hpre]
  | true =>
    obtain ⟨es, dir', hS⟩ := hdir dir (searchRequest W.other q user.Name)
    cases es with
    | nil => exact (mainIdentity_absent W cfg ldapSyncCfg user id dir dir' store q hpre hq hS).1
    | cons e es =>
      exact (mainIdentity_present W cfg ldapSyncCfg user id dir dir' store q (e :: es) hpre hq hS
        (by simp)).1

theorem mainUser_result_ok {δ ς : Type} (W : World δ ς) (cfg : Config)
    (ldapSyncCfg : List (String × Value)) (user : User) (dir : δ) (store : ς)
    (q : UsersQuery)
    (hq : usersQuery ldapSyncCfg = .ok q)
    (hdir : ∀ d req, ∃ es d', W.Search d req = (.ok es, d')) :
    (mainUser W cfg ldapSyncCfg user dir store).result = .ok () := by
  by_cases h : user.Identities.length = 1
  · obtain ⟨id, hid⟩ := List.length_eq_one.1 h
    rw [mainUser_single W cfg ldapSyncCfg user id dir store hid]
    exact mainIdentity_result_ok W cfg ldapSyncCfg user id dir store q hq hdir
  · rw [mainUser_count_mismatch W cfg ldapSyncCfg user dir store h]

theorem mainLoop_result_ok {δ ς : Type} (W : World δ ς) (cfg : Config)
    (ldapSyncCfg : List (String × Value)) (users : List User) (dir : δ) (store : ς)
    (q : UsersQuery)
    (hq : usersQuery ldapSyncCfg = .ok q)
    (hdir : ∀ d req, ∃ es d', W.Search d req = (.ok es, d')) :
    (mainLoop W cfg ldapSyncCfg users dir store).result = .ok () := by
  induction users generalizing dir store with
  | nil => rfl
  | cons u us ih =>
    simp only [mainLoop]
    rw [andThen_ok _ _ (mainUser_result_ok W cfg ldapSyncCfg u dir store q hq hdir)]
    exact ih _ _

/-- No user adds more than one identity delete and more than one user delete. -/
theorem mainUser_deletes {δ ς : Type} (W : World δ ς) (cfg : Config)
    (ldapSyncCfg : List (String × Value)) (user : User) (dir : δ) (store : ς) :
    (mainUser W cfg ldapSyncCfg user dir store).calls.countP Call.isIdentitiesDelete ≤ 1 ∧
    (mainUser W cfg ldapSyncCfg user dir store).calls.countP Call.isUsersDelete ≤ 1 := by
  by_cases h : user.Identities.length = 1
  · obtain ⟨id, hid⟩ := List.length_eq_one.1 h
    rw [mainUser_single W cfg ldapSyncCfg user id dir store hid]
    cases hpre : HasPrefix id cfg.IdentityPrefix with
    | false =>
      rw [mainIdentity_other_provider W cfg ldapSyncCfg user id dir store hpre]
      simp
    | true =>
      cases hq : usersQuery ldapSyncCfg with
      | error msg =>
        have hp := searchUser_panic W ldapSyncCfg user.Name dir msg hq
        unfold mainIdentity
        simp [hpre, hp]
      | ok q =>
        rcases mainIdentity_shape W cfg ldapSyncCfg user id dir store q hpre hq with h1 | ⟨d, h1⟩
        · rw [h1]; simp [Call.isIdentitiesDelete, Call.isUsersDelete]
        · rw [h1, mainDelete_calls]
          split_ifs <;> simp [Call.isIdentitiesDelete, Call.isUsersDelete]
  · rw [mainUser_count_mismatch W cfg ldapSyncCfg user dir store h]
    simp

/-- In dry-run the body for an identity leaves the identity store alone and issues queries
only. -/
theorem mainIdentity_dry {δ ς : Type} (W : World δ ς) (cfg : Config)
    (ldapSyncCfg : List (String × Value)) (user : User) (id : String) (dir : δ) (store : ς)
    (hc : cfg.Confirm = false) :
    (mainIdentity W cfg ldapSyncCfg user id dir store).store = store ∧
    ∀ c ∈ (mainIdentity W cfg ldapSyncCfg user id dir store).calls, c.isSearch = true := by
  have hs := searchUser_calls W ldapSyncCfg user.Name dir
  unfold mainIdentity
  split
  · dsimp only
    split
    · exact ⟨rfl, hs⟩
    · rw [hc]; exact ⟨rfl, hs⟩
    · exact ⟨rfl, hs⟩
  · simp

theorem andThen_dry {δ ς : Type} (a : Outcome δ ς) (k : δ → ς → Outcome δ ς) (store : ς)
    (ha : a.store = store ∧ ∀ c ∈ a.calls, c.isSearch = true)
    (hk : ∀ d, (k d store).store = store ∧ ∀ c ∈ (k d store).calls, c.isSearch = true) :
    (a.andThen k).store = store ∧ ∀ c ∈ (a.andThen k).calls, c.isSearch = true := by
  cases hr : a.result with
  | error f => rw [andThen_error a k f hr]; exact ha
  | ok u =>
    cases u
    rw [andThen_ok a k hr, ha.1]
    refine ⟨(hk a.dir).1, ?_⟩
    intro c hc
    rcases List.mem_append.1 hc with h | h
    · exact ha.2 c h
    · exact (hk a.dir).2 c h

theorem mainUser_dry {δ ς : Type} (W : World δ ς) (cfg : Config)
    (ldapSyncCfg : List (String × Value)) (user : User) (dir : δ) (store : ς)
    (hc : cfg.Confirm = false) :
    (mainUser W cfg ldapSyncCfg user dir store).store = store ∧
    ∀ c ∈ (mainUser W cfg ldapSyncCfg user dir store).calls, c.isSearch = true := by
  by_cases h : user.Identities.length = 1
  · obtain ⟨id, hid⟩ := List.length_eq_one.1 h
    rw [mainUser_single W cfg ldapSyncCfg user id dir store hid]
    exact mainIdentity_dry W cfg ldapSyncCfg user id dir store hc
  · rw [mainUser_count_mismatch W cfg ldapSyncCfg user dir store h]
    simp

theorem isSearch_not_delete (c : Call) (h : c.isSearch = true) :
    c.isIdentitiesDelete = false ∧ c.isUsersDelete = false := by
  cases c <;> simp [Call.isSearch, Call.isIdentitiesDelete, Call.isUsersDelete] at h ⊢

theorem usernameFilter_data (other : Value → String) (attrs : List String) (u acc : String) :
    (attrs.map Value.str).foldl
        (fun acc filterUser => acc ++ "(" ++ verbS other filterUser ++ "=" ++ u ++ ")") acc =
      acc ++ clauses attrs u := by
  induction attrs generalizing acc with
  | nil =>
    apply String.ext
    simp [clauses, String.join_eq]
  | cons a as ih =>
    simp only [List.map_cons, List.foldl_cons]
    rw [ih]
    have hv : verbS other (Value.str a) = a := rfl
    rw [hv]
    apply String.ext
    simp [clauses, String.join_eq]

theorem searchFilter_strings (other : Value → String) (baseDN f : String) (d : DerefAliases)
    (attrs : List String) (u : String) :
    searchFilter other ⟨baseDN, f, d, attrs.map Value.str⟩ u =
      if f = "" then "(|" ++ clauses attrs u ++ ")"
      else "(&" ++ f ++ "(|" ++ clauses attrs u ++ ")" ++ ")" := by
  unfold searchFilter usernameFilter
  simp only [usernameFilter_data]
  by_cases hf : f = ""
  · simp only [hf, ne_eq, not_true_eq_false, if_false, if_true]; apply String.ext; simp
  · simp only [hf, ne_eq, not_false_eq_true, if_true, if_false]; apply String.ext; simp

/-! ## The model on the example data -/

/-- What the codec does on a few strings: a syntax error for text, for an underscore and
for the empty string, a range error beyond `int64` (also when a digit string that already
overflowed goes on with a letter), the smallest `int64`, the truncation toward zero of Go's
`/` on negative values, and a sign with leading zeros. -/
theorem FileTimeToGoTime_samples :
    FileTimeToGoTime "abc" = .error .ErrSyntax ∧
    FileTimeToGoTime "1_0" = .error .ErrSyntax ∧
    FileTimeToGoTime "" = .error .ErrSyntax ∧
    FileTimeToGoTime "9223372036854775808" = .error .ErrRange ∧
    FileTimeToGoTime "99999999999999999999999x" = .error .ErrRange ∧
    FileTimeToGoTime "-9223372036854775808" = .ok ⟨-922337203685 - 11644473600, 0, .UTC⟩ ∧
    FileTimeToGoTime "-1" = .ok ⟨0 - 11644473600, 0, .UTC⟩ ∧
    FileTimeToGoTime "-10000000" = .ok ⟨-1 - 11644473600, 0, .UTC⟩ ∧
    FileTimeToGoTime "+0019" = .ok ⟨0 - 11644473600, 0, .UTC⟩ ∧
    Time.zero = Date 1 1 1 0 0 0 0 .UTC :=
  ⟨rfl, rfl, rfl, rfl, rfl, rfl, rfl, rfl, rfl, rfl⟩

/-- A run in confirm mode over the five example users: alice is deleted (identity, then
user), bob is found and kept, carol's identity delete fails and her user is left, dave and
erin are skipped without a query. -/
theorem mainLoop_sample :
    (mainLoop sampleWorld (sampleConfig true)
      (sampleSync (.str "never") (.str "(objectClass=person)"))
      [alice, bob, carol, dave, erin] () []).calls =
      [.Search (searchRequest sampleWorld.other sampleQuery "alice"),
        .IdentitiesDelete "ldap:alice", .UsersDelete "alice",
        .Search (searchRequest sampleWorld.other sampleQuery "bob"),
        .Search (searchRequest sampleWorld.other sampleQuery "carol"),
        .IdentitiesDelete "ldap:carol"] ∧
    (mainLoop sampleWorld (sampleConfig true)
      (sampleSync (.str "never") (.str "(objectClass=person)"))
      [alice, bob, carol, dave, erin] () []).store = ["ldap:alice", "alice"] ∧
    (mainLoop sampleWorld (sampleConfig true)
      (sampleSync (.str "never") (.str "(objectClass=person)"))
      [alice, bob, carol, dave, erin] () []).result = .ok () :=
  ⟨rfl, rfl, rfl⟩

/-- With the key `derefAliases` missing, the users that are skipped pass, and the first user
that is searched for stops the process, before any call. -/
theorem mainLoop_sample_without_deref :
    mainLoop sampleWorld (sampleConfig true) sampleSyncNoDeref [erin, dave, alice, bob] () [] =
      ⟨.error (.panic "interface conversion: interface \x7b\x7d is nil, not string"), (), [], [],
        [⟨.Debug, "User identity prefix is wrong, skipping", []⟩,
          ⟨.Debug, "Skipping user due to identity count mismatch", []⟩,
          ⟨.Debug, "Found User with correct prefix, searching in LDAP", []⟩]⟩ :=
  rfl

/-- The log records `searchUser` writes for bob's entry: the attribute names it asks the
entry for are in lower case and do not match `lastLogon` and `accountExpires`, so all three
conversions fail on the empty string and the zero time is logged. -/
theorem searchUser_sample_logs :
    (searchUser sampleWorld (sampleSync (.str "never") (.str "(objectClass=person)"))
      "bob" ()).logs =
      [⟨.Debug, "Using LDAP filter", []⟩,
        ⟨.Debug, "User found in LDAP, checking user attributes", []⟩,
        ⟨.Error, "Cannot convert FileTime for lastLogon attribute", []⟩,
        ⟨.Error, "Cannot convert FileTime for lastLogonTimestamp attribute", []⟩,
        ⟨.Error, "Cannot convert FileTime for accountExpires attribute", []⟩,
        ⟨.Debug, "Attributes", [Time.zero, Time.zero, Time.zero]⟩] :=
  rfl

/-! ## The claims -/

/-- C1: a user with exactly one identity, carrying the configured prefix, for whom the
directory search returns one or more entries is not eligible: `searchUser` returns false, and
the loop body issues the query and nothing else (no identity delete, no user delete, the
identity store as it was), whatever the confirm flag is and whatever the entries hold. -/
theorem C1_present_user_is_kept {δ ς : Type} (W : World δ ς) (cfg : Config)
    (ldapSyncCfg : List (String × Value)) (user : User) (id : String) (dir dir' : δ)
    (store : ς) (q : UsersQuery) (entries : List Entry)
    (hid : user.Identities = [id])
    (hpre : HasPrefix id cfg.IdentityPrefix = true)
    (hq : usersQuery ldapSyncCfg = .ok q)
    (hs : W.Search dir (searchRequest W.other q user.Name) = (.ok entries, dir'))
    (hne : entries ≠ []) :
    (searchUser W ldapSyncCfg user.Name dir).result = .ok false ∧
    (mainUser W cfg ldapSyncCfg user dir store).result = .ok () ∧
    (mainUser W cfg ldapSyncCfg user dir store).calls =
      [.Search (searchRequest W.other q user.Name)] ∧
    (mainUser W cfg ldapSyncCfg user dir store).store = store := by
  obtain ⟨h1, _, _⟩ := searchUser_found W ldapSyncCfg user.Name dir dir' q entries hq hs
  have hlen : decide (entries.length = 0) = false := by
    cases entries with
    | nil => exact absurd rfl hne
    | cons e es => simp
  rw [hlen] at h1
  obtain ⟨m1, _, m3, m4⟩ :=
    mainIdentity_present W cfg ldapSyncCfg user id dir dir' store q entries hpre hq hs hne
  rw [mainUser_single W cfg ldapSyncCfg user id dir store hid]
  exact ⟨h1, m1, m4, m3⟩

theorem C1_witness :
    (searchUser sampleWorld (sampleSync (.str "never") (.str "(objectClass=person)"))
      bob.Name ()).result = .ok false ∧
    (mainUser sampleWorld (sampleConfig true)
      (sampleSync (.str "never") (.str "(objectClass=person)")) bob () []).result = .ok () ∧
    (mainUser sampleWorld (sampleConfig true)
      (sampleSync (.str "never") (.str "(objectClass=person)")) bob () []).calls =
      [.Search (searchRequest sampleWorld.other sampleQuery bob.Name)] ∧
    (mainUser sampleWorld (sampleConfig true)
      (sampleSync (.str "never") (.str "(objectClass=person)")) bob () []).store = [] :=
  C1_present_user_is_kept sampleWorld (sampleConfig true)
    (sampleSync (.str "never") (.str "(objectClass=person)")) bob "ldap:bob" () () []
    sampleQuery [bobEntry] rfl rfl rfl rfl (by simp)

/-- C2: a user with exactly one identity, carrying the configured prefix, for whom the
directory search returns no entry is eligible (`searchUser` returns true); in confirm mode the
loop body issues, in this order, the query, the delete of that identity, and then the delete
of the user by name exactly when the identity delete returned no error. -/
theorem C2_absent_user_is_deleted_in_order {δ ς : Type} (W : World δ ς) (cfg : Config)
    (ldapSyncCfg : List (String × Value)) (user : User) (id : String) (dir dir' : δ)
    (store : ς) (q : UsersQuery)
    (hid : user.Identities = [id])
    (hpre : HasPrefix id cfg.IdentityPrefix = true)
    (hq : usersQuery ldapSyncCfg = .ok q)
    (hs : W.Search dir (searchRequest W.other q user.Name) = (.ok [], dir'))
    (hc : cfg.Confirm = true) :
    (searchUser W ldapSyncCfg user.Name dir).result = .ok true ∧
    (mainUser W cfg ldapSyncCfg user dir store).result = .ok () ∧
    (mainUser W cfg ldapSyncCfg user dir store).calls =
      .Search (searchRequest W.other q user.Name) :: .IdentitiesDelete id ::
        (if (W.IdentitiesDelete store id).1 = none then [.UsersDelete user.Name] else []) := by
  obtain ⟨h1, _, _⟩ := searchUser_found W ldapSyncCfg user.Name dir dir' q [] hq hs
  obtain ⟨m1, _, _, m4⟩ :=
    mainIdentity_absent W cfg ldapSyncCfg user id dir dir' store q hpre hq hs
  rw [mainUser_single W cfg ldapSyncCfg user id dir store hid]
  refine ⟨by simpa using h1, m1, ?_⟩
  rw [m4, hc, if_pos rfl, mainDelete_calls]

theorem C2_witness :
    (searchUser sampleWorld (sampleSync (.str "never") (.str "(objectClass=person)"))
      carol.Name ()).result = .ok true ∧
    (mainUser sampleWorld (sampleConfig true)
      (sampleSync (.str "never") (.str "(objectClass=person)")) carol () []).result = .ok () ∧
    (mainUser sampleWorld (sampleConfig true)
      (sampleSync (.str "never") (.str "(objectClass=person)")) carol () []).calls =
      .Search (searchRequest sampleWorld.other sampleQuery carol.Name) ::
        .IdentitiesDelete "ldap:carol" ::
        (if (sampleWorld.IdentitiesDelete [] "ldap:carol").1 = none
          then [.UsersDelete carol.Name] else []) :=
  C2_absent_user_is_deleted_in_order sampleWorld (sampleConfig true)
    (sampleSync (.str "never") (.str "(objectClass=person)")) carol "ldap:carol" () () []
    sampleQuery rfl rfl rfl rfl rfl

/-- C3: dry-run.  When confirm is false, for every list of users and every behaviour of the
directory and of the identity store, the run issues directory queries only: no identity
delete, no user delete, and the identity store is left as it was. -/
theorem C3_dry_run_deletes_nothing {δ ς : Type} (W : World δ ς) (cfg : Config)
    (ldapSyncCfg : List (String × Value)) (users : List User) (dir : δ) (store : ς)
    (hc : cfg.Confirm = false) :
    (mainLoop W cfg ldapSyncCfg users dir store).store = store ∧
    ∀ c ∈ (mainLoop W cfg ldapSyncCfg users dir store).calls,
      c.isSearch = true ∧ c.isIdentitiesDelete = false ∧ c.isUsersDelete = false := by
  have key : (mainLoop W cfg ldapSyncCfg users dir store).store = store ∧
      ∀ c ∈ (mainLoop W cfg ldapSyncCfg users dir store).calls, c.isSearch = true := by
    induction users generalizing dir with
    | nil => simp [mainLoop]
    | cons u us ih =>
      simp only [mainLoop]
      exact andThen_dry _ _ store (mainUser_dry W cfg ldapSyncCfg u dir store hc) ih
  exact ⟨key.1, fun c hmem => ⟨key.2 c hmem, isSearch_not_delete c (key.2 c hmem)⟩⟩

theorem C3_witness :
    (mainLoop sampleWorld (sampleConfig false)
      (sampleSync (.str "never") (.str "(objectClass=person)"))
      [alice, bob, carol, dave, erin] () []).store = [] ∧
    ∀ c ∈ (mainLoop sampleWorld (sampleConfig false)
      (sampleSync (.str "never") (.str "(objectClass=person)"))
      [alice, bob, carol, dave, erin] () []).calls,
      c.isSearch = true ∧ c.isIdentitiesDelete = false ∧ c.isUsersDelete = false :=
  C3_dry_run_deletes_nothing sampleWorld (sampleConfig false)
    (sampleSync (.str "never") (.str "(objectClass=person)"))
    [alice, bob, carol, dave, erin] () [] rfl

/-- C4: under a well-typed sync configuration, the loop body issues a directory query for
a user exactly when the user has one identity and that identity starts with the configured
prefix; every query it issues is the request built for the user's name; and for any other
user (no identity, several identities, or one identity without the prefix) it issues no call
at all and leaves the directory and the identity store as they were, whatever the confirm
flag is. -/
theorem C4_query_iff_one_prefixed_identity {δ ς : Type} (W : World δ ς) (cfg : Config)
    (ldapSyncCfg : List (String × Value)) (user : User) (dir : δ) (store : ς) (q : UsersQuery)
    (hq : usersQuery ldapSyncCfg = .ok q) :
    ((∃ c ∈ (mainUser W cfg ldapSyncCfg user dir store).calls, c.isSearch = true) ↔
      ∃ id, user.Identities = [id] ∧ HasPrefix id cfg.IdentityPrefix = true) ∧
    (∀ c ∈ (mainUser W cfg ldapSyncCfg user dir store).calls, c.isSearch = true →
      c = .Search (searchRequest W.other q user.Name)) ∧
    ((¬ ∃ id, user.Identities = [id] ∧ HasPrefix id cfg.IdentityPrefix = true) →
      (mainUser W cfg ldapSyncCfg user dir store).result = .ok () ∧
      (mainUser W cfg ldapSyncCfg user dir store).calls = [] ∧
      (mainUser W cfg ldapSyncCfg user dir store).dir = dir ∧
      (mainUser W cfg ldapSyncCfg user dir store).store = store) := by
  by_cases h : user.Identities.length = 1
  · obtain ⟨id, hid⟩ := List.length_eq_one.1 h
    rw [mainUser_single W cfg ldapSyncCfg user id dir store hid]
    cases hpre : HasPrefix id cfg.IdentityPrefix with
    | false =>
      rw [mainIdentity_other_provider W cfg ldapSyncCfg user id dir store hpre]
      refine ⟨⟨by simp, ?_⟩, by simp, fun _ => ⟨rfl, rfl, rfl, rfl⟩⟩
      rintro ⟨id', hid', hpre'⟩
      rw [hid] at hid'
      injection hid' with e
      rw [← e, hpre] at hpre'
      exact absurd hpre' (by simp)
    | true =>
      have hex : ∃ id, user.Identities = [id] ∧ HasPrefix id cfg.IdentityPrefix = true :=
        ⟨id, hid, hpre⟩
      refine ⟨⟨fun _ => hex, fun _ => ?_⟩, ?_, fun hn => absurd hex hn⟩
      · rcases mainIdentity_shape W cfg ldapSyncCfg user id dir store q hpre hq with h1 | ⟨d, h1⟩
        · exact ⟨.Search (searchRequest W.other q user.Name), by rw [h1]; exact List.mem_cons_self _ _, rfl⟩
        · exact ⟨.Search (searchRequest W.other q user.Name), by rw [h1]; exact List.mem_cons_self _ _, rfl⟩
      · intro c hc hs
        rcases mainIdentity_shape W cfg ldapSyncCfg user id dir store q hpre hq with h1 | ⟨d, h1⟩
        · rw [h1] at hc
          simpa using hc
        · rw [h1, mainDelete_calls] at hc
          rcases List.mem_cons.1 hc with e | hc
          · exact e
          · rcases List.mem_cons.1 hc with e | hc
            · rw [e] at hs; simp [Call.isSearch] at hs
            · split_ifs at hc
              · rw [List.mem_singleton.1 hc] at hs; simp [Call.isSearch] at hs
              · simp at hc
  · rw [mainUser_count_mismatch W cfg ldapSyncCfg user dir store h]
    refine ⟨⟨by simp, ?_⟩, by simp, fun _ => ⟨rfl, rfl, rfl, rfl⟩⟩
    rintro ⟨id, hid, _⟩
    rw [hid] at h
    exact absurd rfl h

theorem C4_witness :
    ((∃ c ∈ (mainUser sampleWorld (sampleConfig true)
        (sampleSync (.str "never") (.str "(objectClass=person)")) alice () []).calls,
        c.isSearch = true) ↔
      ∃ id, alice.Identities = [id] ∧ HasPrefix id (sampleConfig true).IdentityPrefix = true) ∧
    (∀ c ∈ (mainUser sampleWorld (sampleConfig true)
        (sampleSync (.str "never") (.str "(objectClass=person)")) alice () []).calls,
      c.isSearch = true → c = .Search (searchRequest sampleWorld.other sampleQuery alice.Name)) ∧
    ((¬ ∃ id, alice.Identities = [id] ∧ HasPrefix id (sampleConfig true).IdentityPrefix = true) →
      (mainUser sampleWorld (sampleConfig true)
        (sampleSync (.str "never") (.str "(objectClass=person)")) alice () []).result = .ok () ∧
      (mainUser sampleWorld (sampleConfig true)
        (sampleSync (.str "never") (.str "(objectClass=person)")) alice () []).calls = [] ∧
      (mainUser sampleWorld (sampleConfig true)
        (sampleSync (.str "never") (.str "(objectClass=person)")) alice () []).dir = () ∧
      (mainUser sampleWorld (sampleConfig true)
        (sampleSync (.str "never") (.str "(objectClass=person)")) alice () []).store = []) :=
  C4_query_iff_one_prefixed_identity sampleWorld (sampleConfig true)
    (sampleSync (.str "never") (.str "(objectClass=person)")) alice () [] sampleQuery rfl

/-- C5: for every non-empty string of decimal digits whose value fits an `int64`,
`FileTimeToGoTime` succeeds and returns the UTC time whose Unix seconds are the value
integer-divided by 10,000,000 minus 11,644,473,600, with no sub-second part; and
`FileTimeToGoTime("133753723630000000")` is 2024-11-06T13:12:43Z. -/
theorem C5_FileTimeToGoTime_decodes (ds : List Char) (hne : ds ≠ [])
    (hd : ∀ c ∈ ds, c.isDigit = true) (hr : decimalValue ds < 2 ^ 63) :
    FileTimeToGoTime (String.mk ds) =
      .ok ⟨(decimalValue ds : Int) / 10000000 - 11644473600, 0, .UTC⟩ ∧
    FileTimeToGoTime "133753723630000000" = .ok (Date 2024 11 6 13 12 43 0 .UTC) := by
  refine ⟨?_, rfl⟩
  rw [FileTimeToGoTime_of_ParseInt _ _ (ParseInt_digits ds hne hd hr),
    Int.tdiv_eq_ediv (by omega) (by norm_num)]

theorem C5_witness :
    FileTimeToGoTime (String.mk ['1', '1', '6', '4', '4', '4', '7', '3', '6', '0', '0', '0', '0',
        '0', '0', '0', '1', '9']) =
      .ok ⟨(decimalValue ['1', '1', '6', '4', '4', '4', '7', '3', '6', '0', '0', '0', '0',
        '0', '0', '0', '1', '9'] : Int) / 10000000 - 11644473600, 0, .UTC⟩ ∧
    FileTimeToGoTime "133753723630000000" = .ok (Date 2024 11 6 13 12 43 0 .UTC) :=
  C5_FileTimeToGoTime_decodes _ (by decide) (by decide) (by decide)

/-- C6: for every string that is not a valid integer string (not an optional sign followed
by one or more decimal digits; the empty string is one of them) `FileTimeToGoTime` returns an
error and no time at all; for the empty string the error is a syntax error. -/
theorem C6_FileTimeToGoTime_rejects (s : String) (h : isIntegerString s = false) :
    (∃ e, FileTimeToGoTime s = .error e) ∧ (∀ t, FileTimeToGoTime s ≠ .ok t) ∧
    FileTimeToGoTime "" = .error .ErrSyntax := by
  obtain ⟨e, he⟩ := ParseInt_bad s h
  have hf : FileTimeToGoTime s = .error e := by simp [FileTimeToGoTime, he]
  exact ⟨⟨e, hf⟩, fun t ht => by rw [hf] at ht; exact absurd ht (by simp), rfl⟩

theorem C6_witness :
    (∃ e, FileTimeToGoTime "2024-11-06T13:12:43Z" = .error e) ∧
    (∀ t, FileTimeToGoTime "2024-11-06T13:12:43Z" ≠ .ok t) ∧
    FileTimeToGoTime "" = .error .ErrSyntax :=
  C6_FileTimeToGoTime_rejects "2024-11-06T13:12:43Z" (by decide)

/-- C7: with username attributes `a1..an` (strings), username `u` and base filter `f`, the
filter of the request `searchUser` issues is `(|(a1=u)...(an=u))` when `f` is empty and
`(&` ++ `f` ++ `(|(a1=u)...(an=u))` ++ `)` otherwise, one clause per attribute in
configuration order; for `sAMAccountName`, `cn`, `alice` and `(objectClass=person)` it is
`(&(objectClass=person)(|(sAMAccountName=alice)(cn=alice)))`, and with the empty base filter
`(|(sAMAccountName=alice)(cn=alice))`. -/
theorem C7_search_filter {δ ς : Type} (W : World δ ς) (cfg : List (String × Value))
    (q : UsersQuery) (attrs : List String) (u : String) (dir : δ)
    (hq : usersQuery cfg = .ok q) (ha : q.aadUserNames = attrs.map Value.str) :
    (∃ req, (searchUser W cfg u dir).calls = [.Search req] ∧
      req.Filter =
        if q.filter = "" then "(|" ++ clauses attrs u ++ ")"
        else "(&" ++ q.filter ++ "(|" ++ clauses attrs u ++ ")" ++ ")") ∧
    (searchUser W (sampleSync (.str "never") (.str "(objectClass=person)")) "alice" dir).calls =
      [.Search ⟨"dc=example,dc=com", .ScopeWholeSubtree, .NeverDerefAliases, 0, 0, false,
        "(&(objectClass=person)(|(sAMAccountName=alice)(cn=alice)))",
        ["dn", "cn", "lastLogon", "accountExpires", "sAMAccountName", "lastLogonTimestamp"]⟩] ∧
    (searchUser W (sampleSync (.str "never") (.str "")) "alice" dir).calls =
      [.Search ⟨"dc=example,dc=com", .ScopeWholeSubtree, .NeverDerefAliases, 0, 0, false,
        "(|(sAMAccountName=alice)(cn=alice))",
        ["dn", "cn", "lastLogon", "accountExpires", "sAMAccountName", "lastLogonTimestamp"]⟩] := by
  refine ⟨⟨searchRequest W.other q u, searchUser_issues W cfg u dir q hq, ?_⟩, ?_, ?_⟩
  · obtain ⟨baseDN, f, d, names⟩ := q
    simp only at ha
    subst ha
    exact searchFilter_strings W.other baseDN f d attrs u
  · exact searchUser_issues W _ "alice" dir
      ⟨"dc=example,dc=com", "(objectClass=person)", .NeverDerefAliases,
        [.str "sAMAccountName", .str "cn"]⟩ rfl
  · exact searchUser_issues W _ "alice" dir
      ⟨"dc=example,dc=com", "", .NeverDerefAliases, [.str "sAMAccountName", .str "cn"]⟩ rfl

theorem C7_witness :
    (∃ req, (searchUser sampleWorld (sampleSync (.str "never") (.str "(objectClass=person)"))
        "bob" ()).calls = [.Search req] ∧
      req.Filter =
        if sampleQuery.filter = "" then "(|" ++ clauses ["sAMAccountName", "cn"] "bob" ++ ")"
        else "(&" ++ sampleQuery.filter ++ "(|" ++ clauses ["sAMAccountName", "cn"] "bob" ++ ")"
          ++ ")") ∧
    (searchUser sampleWorld (sampleSync (.str "never") (.str "(objectClass=person)"))
        "alice" ()).calls =
      [.Search ⟨"dc=example,dc=com", .ScopeWholeSubtree, .NeverDerefAliases, 0, 0, false,
        "(&(objectClass=person)(|(sAMAccountName=alice)(cn=alice)))",
        ["dn", "cn", "lastLogon", "accountExpires", "sAMAccountName", "lastLogonTimestamp"]⟩] ∧
    (searchUser sampleWorld (sampleSync (.str "never") (.str "")) "alice" ()).calls =
      [.Search ⟨"dc=example,dc=com", .ScopeWholeSubtree, .NeverDerefAliases, 0, 0, false,
        "(|(sAMAccountName=alice)(cn=alice))",
        ["dn", "cn", "lastLogon", "accountExpires", "sAMAccountName", "lastLogonTimestamp"]⟩] :=
  C7_search_filter sampleWorld (sampleSync (.str "never") (.str "(objectClass=person)"))
    sampleQuery ["sAMAccountName", "cn"] "bob" () rfl rfl

/-- C8, against the claim: with the key `derefAliases` absent from an otherwise complete
configuration, `searchUser` does not fall back to never-dereference; the type assertion
panics and no search is issued. -/
theorem C8_absent_key_panics :
    (¬ ∃ q, usersQuery sampleSyncNoDeref = .ok q) ∧
    searchUser sampleWorld sampleSyncNoDeref "alice" () =
      ⟨.error (.panic "interface conversion: interface \x7b\x7d is nil, not string"), (), [], []⟩ := by
  have h : usersQuery sampleSyncNoDeref =
      .error "interface conversion: interface \x7b\x7d is nil, not string" := rfl
  refine ⟨?_, rfl⟩
  rintro ⟨q, hq⟩
  rw [h] at hq
  exact absurd hq (by simp)

/-- C8, amended: in a configuration whose other keys are present and well typed, a
`derefAliases` that holds a string gives always-dereference for the string `always` and
never-dereference for every other string, and the search is issued with that policy; a
`derefAliases` that is absent or holds a value of another type makes `searchUser` panic at
the type assertion, before any search. -/
theorem C8_deref_policy_of_strings {δ ς : Type} (W : World δ ς) (cfg : List (String × Value))
    (aad aadUq : List (String × Value)) (baseDN filter : String) (names : List Value)
    (u : String) (dir : δ)
    (h1 : index cfg "augmentedActiveDirectory" = .map aad)
    (h2 : index aad "usersQuery" = .map aadUq)
    (h3 : index aadUq "baseDN" = .str baseDN)
    (h4 : index aadUq "filter" = .str filter)
    (h5 : index aad "userNameAttributes" = .seq names) :
    match index aadUq "derefAliases" with
    | .str d =>
      usersQuery cfg = .ok ⟨baseDN, filter,
        if d = "always" then .DerefAlways else .NeverDerefAliases, names⟩ ∧
      (searchUser W cfg u dir).calls = [.Search (searchRequest W.other ⟨baseDN, filter,
        if d = "always" then .DerefAlways else .NeverDerefAliases, names⟩ u)]
    | v => searchUser W cfg u dir = ⟨.error (.panic (conversionPanic v "string")), dir, [], []⟩ := by
  have hU : usersQuery cfg =
      match index aadUq "derefAliases" with
      | .str d => .ok ⟨baseDN, filter,
          if d = "always" then .DerefAlways else .NeverDerefAliases, names⟩
      | v => .error (conversionPanic v "string") := by
    unfold usersQuery
    rw [h1]
    simp only [assertMap, bind, Except.bind]
    rw [h2]
    simp only [h3, h4, h5, assertString, assertSlice]
    cases index aadUq "derefAliases" <;> rfl
  cases hv : index aadUq "derefAliases" with
  | str d =>
    rw [hv] at hU
    exact ⟨hU, searchUser_issues W cfg u dir _ hU⟩
  | null => rw [hv] at hU; exact searchUser_panic W cfg u dir _ hU
  | bool b => rw [hv] at hU; exact searchUser_panic W cfg u dir _ hU
  | int i => rw [hv] at hU; exact searchUser_panic W cfg u dir _ hU
  | seq xs => rw [hv] at hU; exact searchUser_panic W cfg u dir _ hU
  | map kv => rw [hv] at hU; exact searchUser_panic W cfg u dir _ hU

theorem C8_witness :
    usersQuery (sampleSync (.str "always") (.str "(objectClass=person)")) =
      .ok ⟨"dc=example,dc=com", "(objectClass=person)", .DerefAlways,
        [.str "sAMAccountName", .str "cn"]⟩ ∧
    (searchUser sampleWorld (sampleSync (.str "always") (.str "(objectClass=person)"))
        "alice" ()).calls =
      [.Search (searchRequest sampleWorld.other ⟨"dc=example,dc=com", "(objectClass=person)",
        .DerefAlways, [.str "sAMAccountName", .str "cn"]⟩ "alice")] :=
  C8_deref_policy_of_strings sampleWorld (sampleSync (.str "always") (.str "(objectClass=person)"))
    _ _ "dc=example,dc=com" "(objectClass=person)" [.str "sAMAccountName", .str "cn"] "alice" ()
    rfl rfl rfl rfl rfl

/-- C9: under a well-typed configuration and a directory that answers every search, the run
reaches its end whatever the identity deletes and user deletes return; the calls of the run
over `us1 ++ us2` are the calls of the run over `us1` followed by the calls of the run over
`us2` (started from the remote states the first run left); and no user adds more than one
identity delete or more than one user delete. -/
theorem C9_failed_deletes_do_not_abort {δ ς : Type} (W : World δ ς) (cfg : Config)
    (ldapSyncCfg : List (String × Value)) (q : UsersQuery) (us1 us2 : List User) (dir : δ)
    (store : ς)
    (hq : usersQuery ldapSyncCfg = .ok q)
    (hdir : ∀ d req, ∃ es d', W.Search d req = (.ok es, d')) :
    (mainLoop W cfg ldapSyncCfg (us1 ++ us2) dir store).result = .ok () ∧
    (mainLoop W cfg ldapSyncCfg (us1 ++ us2) dir store).calls =
      (mainLoop W cfg ldapSyncCfg us1 dir store).calls ++
        (mainLoop W cfg ldapSyncCfg us2 (mainLoop W cfg ldapSyncCfg us1 dir store).dir
          (mainLoop W cfg ldapSyncCfg us1 dir store).store).calls ∧
    ∀ (user : User) (d : δ) (st : ς),
      (mainUser W cfg ldapSyncCfg user d st).calls.countP Call.isIdentitiesDelete ≤ 1 ∧
      (mainUser W cfg ldapSyncCfg user d st).calls.countP Call.isUsersDelete ≤ 1 := by
  refine ⟨mainLoop_result_ok W cfg ldapSyncCfg _ dir store q hq hdir, ?_,
    fun user d st => mainUser_deletes W cfg ldapSyncCfg user d st⟩
  rw [mainLoop_append,
    andThen_ok _ _ (mainLoop_result_ok W cfg ldapSyncCfg us1 dir store q hq hdir)]

theorem C9_witness :
    (mainLoop sampleWorld (sampleConfig true)
      (sampleSync (.str "never") (.str "(objectClass=person)"))
      ([carol, bob] ++ [alice, dave]) () []).result = .ok () ∧
    (mainLoop sampleWorld (sampleConfig true)
      (sampleSync (.str "never") (.str "(objectClass=person)"))
      ([carol, bob] ++ [alice, dave]) () []).calls =
      (mainLoop sampleWorld (sampleConfig true)
        (sampleSync (.str "never") (.str "(objectClass=person)")) [carol, bob] () []).calls ++
        (mainLoop sampleWorld (sampleConfig true)
          (sampleSync (.str "never") (.str "(objectClass=person)")) [alice, dave]
          (mainLoop sampleWorld (sampleConfig true)
            (sampleSync (.str "never") (.str "(objectClass=person)")) [carol, bob] () []).dir
          (mainLoop sampleWorld (sampleConfig true)
            (sampleSync (.str "never") (.str "(objectClass=person)")) [carol, bob] () []).store).calls ∧
    ∀ (user : User) (d : Unit) (st : List String),
      (mainUser sampleWorld (sampleConfig true)
        (sampleSync (.str "never") (.str "(objectClass=person)")) user d st).calls.countP
          Call.isIdentitiesDelete ≤ 1 ∧
      (mainUser sampleWorld (sampleConfig true)
        (sampleSync (.str "never") (.str "(objectClass=person)")) user d st).calls.countP
          Call.isUsersDelete ≤ 1 :=
  C9_failed_deletes_do_not_abort sampleWorld (sampleConfig true)
    (sampleSync (.str "never") (.str "(objectClass=person)")) sampleQuery [carol, bob]
    [alice, dave] () [] rfl
    (fun d req => by
      simp only [sampleWorld]
      split_ifs
      · exact ⟨_, _, rfl⟩
      · exact ⟨_, _, rfl⟩)

/-- C10: `FileTimeToGoTime` is monotone.  For two strings that parse as `int64` values
`va ≤ vb`, both conversions succeed, the time for the first is not after the time for the
second, and the two times are equal exactly when the two values have the same quotient by
10,000,000 (Go's `/`; for values that are not negative this is the same whole second). -/
theorem C10_FileTimeToGoTime_monotone (a b : String) (va vb : Int)
    (ha : ParseInt a = .ok va) (hb : ParseInt b = .ok vb) (hle : va ≤ vb) :
    ∃ ta tb, FileTimeToGoTime a = .ok ta ∧ FileTimeToGoTime b = .ok tb ∧ ta.notAfter tb ∧
      (ta = tb ↔ Int.tdiv va 10000000 = Int.tdiv vb 10000000) ∧
      (0 ≤ va → (ta = tb ↔ va / 10000000 = vb / 10000000)) := by
  refine ⟨_, _, FileTimeToGoTime_of_ParseInt a va ha, FileTimeToGoTime_of_ParseInt b vb hb, ?_,
    ?_, ?_⟩
  · have := tdiv_mono va vb hle
    unfold Time.notAfter
    simp only
    omega
  · constructor
    · intro h
      injection h with h1 _ _
      omega
    · intro h
      rw [h]
  · intro h0
    rw [Int.tdiv_eq_ediv h0 (by norm_num), Int.tdiv_eq_ediv (by omega) (by norm_num)]
    constructor
    · intro h
      injection h with h1 _ _
      omega
    · intro h
      rw [h]

theorem C10_witness :
    ∃ ta tb, FileTimeToGoTime "133753723630000000" = .ok ta ∧
      FileTimeToGoTime "133753723639999999" = .ok tb ∧ ta.notAfter tb ∧
      (ta = tb ↔ Int.tdiv 133753723630000000 10000000 = Int.tdiv 133753723639999999 10000000) ∧
      ((0 : Int) ≤ 133753723630000000 →
        (ta = tb ↔ (133753723630000000 : Int) / 10000000 = 133753723639999999 / 10000000)) :=
  C10_FileTimeToGoTime_monotone "133753723630000000" "133753723639999999" 133753723630000000
    133753723639999999 rfl rfl (by decide)

end Osluc
